import Mathlib

/-!
Verification development for the Manifest Resolution & Deterministic Packet
Assembly Engine.  The Python sources under `app/domain` (slot, manifest,
slot_resolution) and `app/services/packet_service.py` plus
`app/pdf/pdf_assembler.py` are embedded shallowly: pure functions become Lean
functions, the external collaborators (Dropbox download, DOCX→PDF conversion,
separator-page generation, regular-expression search) become function
parameters, and the effectful pipeline `PacketService.process_packet` becomes a
pure function returning a result record that also logs the download calls it
performed.  Text is modelled as `String` (lists of characters); the inputs the
engine sees are ASCII paths, for which `Char.toLower` agrees with Python
`str.lower`.
-/

/-- Python's whitespace class `\s` restricted to ASCII, as used by
`re.sub(r"\s+", " ", t)` and `str.strip()` in `SlotResolver._normalize`. -/
def isPySpace (c : Char) : Bool :=
  c = ' ' || c = '\t' || c = '\n' || c = '\r' || c = '\x0b' || c = '\x0c'

/-- Python `str.lower` on ASCII text. -/
def pyLower (s : String) : String :=
  String.mk (s.data.map Char.toLower)

/-- Python substring containment `needle in hay` on character lists. -/
def containsSub (needle : List Char) : List Char → Bool
  | [] => needle.isPrefixOf []
  | c :: t => needle.isPrefixOf (c :: t) || containsSub needle t

/-- Python `hay_string.__contains__(needle)` on strings. -/
def strContains (hay needle : String) : Bool :=
  containsSub needle.data hay.data

/-- Python `s.endswith(suffix)`. -/
def pyEndsWith (s suf : String) : Bool :=
  suf.data.isSuffixOf s.data

/-- Python `s.startswith(pre)`. -/
def pyStartsWith (s pre : String) : Bool :=
  pre.data.isPrefixOf s.data

/-- Worker for `collapseWs`: the flag records whether the previous character
was whitespace, so that a maximal whitespace run emits exactly one space. -/
def collapseWsAux : Bool → List Char → List Char
  | _, [] => []
  | prevSpace, c :: t =>
    if isPySpace c then
      if prevSpace then collapseWsAux true t
      else ' ' :: collapseWsAux true t
    else c :: collapseWsAux false t

/-- Collapse every maximal run of whitespace to a single space:
`re.sub(r"\s+", " ", t)` on ASCII text. -/
def collapseWs (l : List Char) : List Char :=
  collapseWsAux false l

/-- Python `str.strip()` on ASCII text. -/
def stripWs (l : List Char) : List Char :=
  ((l.dropWhile (fun d => isPySpace d)).reverse.dropWhile (fun d => isPySpace d)).reverse

/-- `SlotResolver._normalize`: lowercase, replace `_` and `-` by a space,
collapse repeated whitespace, trim. -/
def normalizeText (s : String) : String :=
  let t1 := s.data.map Char.toLower
  let t2 := t1.map (fun c => if c = '_' then ' ' else if c = '-' then ' ' else c)
  String.mk (stripWs (collapseWs t2))

/-- `os.path.basename` for POSIX paths: the part after the last `/`. -/
def baseNameOf (p : String) : String :=
  String.mk (p.data.foldl (fun acc c => if c = '/' then [] else acc ++ [c]) [])

/-- `SlotResolver._matches_folder_hint`: the hint, with backslashes turned into
slashes and lowercased, occurs as a substring of the identically normalized
full path. -/
def matchesFolderHint (file_path folder_hint : String) : Bool :=
  let normalized_path := pyLower (String.mk (file_path.data.map
    (fun c => if c = '\\' then '/' else c)))
  let normalized_hint := pyLower (String.mk (folder_hint.data.map
    (fun c => if c = '\\' then '/' else c)))
  strContains normalized_path normalized_hint

/-- The whitespace-separated words of a normalized hint, empty words dropped:
`[w for w in hint_norm.split(" ") if w]`. -/
def hintWords (hint : String) : List (List Char) :=
  ((normalizeText hint).data.splitOn ' ').filter (fun w => w ≠ [])

/-- `SlotResolver._matches_file_hint`: every word of the normalized hint is a
substring of the normalized basename. -/
def matchesFileHint (file_name file_hint : String) : Bool :=
  let name_norm := normalizeText file_name
  (hintWords file_hint).all (fun w => containsSub w name_norm.data)

/-- Split a character-class body at its first `]`, returning the content and
the rest of the pattern; `none` when the class is unterminated. -/
def findCloseBracket : List Char → Option (List Char × List Char)
  | [] => none
  | c :: rest =>
    if c = ']' then some ([], rest)
    else (findCloseBracket rest).map (fun ab => (c :: ab.1, ab.2))

/-- Scan the text following `[` in a wildcard pattern, honouring `fnmatch`'s
rules: a `!` directly after `[` and a `]` directly after `[` or `[!` are part
of the class content, not its end. -/
def scanClassBody (cs : List Char) : Option (List Char × List Char) :=
  match cs with
  | '!' :: ']' :: rest =>
    (findCloseBracket rest).map (fun ab => ('!' :: ']' :: ab.1, ab.2))
  | '!' :: rest =>
    (findCloseBracket rest).map (fun ab => ('!' :: ab.1, ab.2))
  | ']' :: rest =>
    (findCloseBracket rest).map (fun ab => (']' :: ab.1, ab.2))
  | rest => findCloseBracket rest

/-- Membership of a character in the (possibly range-bearing) body of an
`fnmatch` character class; a `-` at the end of the body is a literal. -/
def classMember : List Char → Char → Bool
  | [], _ => false
  | [a], c => a = c
  | a :: '-' :: [], c => a = c || c = '-'
  | a :: '-' :: b :: rest, c => (a ≤ c && c ≤ b) || classMember rest c
  | a :: rest, c => a = c || classMember rest c

/-- Whether a character matches an `fnmatch` class whose body may start with
the negation marker `!`. -/
def classMatch (body : List Char) (c : Char) : Bool :=
  match body with
  | '!' :: content => !(classMember content c)
  | content => classMember content c

/-- Worker for `wildMatch`: one unit of fuel is spent per step.  Every step
shortens the combined length of pattern and text by at least one, so
`pattern.length + text.length + 1` units always suffice. -/
def wildMatchFuel : Nat → List Char → List Char → Bool
  | 0, _, _ => false
  | Nat.succ n, p, s =>
    match p, s with
    | [], [] => true
    | [], _ :: _ => false
    | '*' :: ps, s =>
      wildMatchFuel n ps s ||
        (match s with
         | [] => false
         | _ :: s' => wildMatchFuel n ('*' :: ps) s')
    | '?' :: ps, s =>
      (match s with
       | [] => false
       | _ :: s' => wildMatchFuel n ps s')
    | '[' :: ps, s =>
      (match scanClassBody ps with
       | none =>
         (match s with
          | [] => false
          | c :: s' => ('[' = c) && wildMatchFuel n ps s')
       | some (body, rest) =>
         (match s with
          | [] => false
          | c :: s' => classMatch body c && wildMatchFuel n rest s'))
    | p1 :: ps, s =>
      (match s with
       | [] => false
       | c :: s' => (p1 = c) && wildMatchFuel n ps s')

/-- Shell-style wildcard matching of a whole name against a pattern, as
`fnmatch.fnmatch` behaves after both sides have been lowercased: `*` matches
any (possibly empty) run, `?` any single character, `[...]`/`[!...]` a
character class (an unterminated `[` is a literal bracket). -/
def wildMatch (p s : List Char) : Bool :=
  wildMatchFuel (p.length + s.length + 1) p s

/-- The outcome of `re.search(regex, name, re.IGNORECASE)` supplied by the
regular-expression collaborator: `none` models an invalid regex (`re.error`),
`some b` a valid regex that did (`true`) or did not (`false`) find a match. -/
abbrev RegexSearch := String → String → Option Bool

/-- Python truthiness of an optional string: `None` and `""` are falsy. -/
def strTruthy (o : Option String) : Bool :=
  o.getD "" ≠ ""

/-- The string carried by a truthy optional string. -/
def optStr (o : Option String) : String :=
  o.getD ""

/-- One iteration of the loop in `SlotResolver._matches_any_pattern`: whether
a single pattern matches the (already lowercased) basename.  A `regex:` prefix
selects regex search on the remainder (original case kept), a `*` or `?` in
the lowercased pattern selects wildcard matching, anything else is a
case-insensitive substring test; the empty pattern is skipped. -/
def matchesOnePattern (rex : RegexSearch) (name : String) (pattern : String) : Bool :=
  if pattern = "" then false
  else if pyStartsWith (pyLower pattern) ("regex:") then
    (match rex (String.mk (pattern.data.drop 6)) name with
     | some b => b
     | none => false)
  else
    let pat := pyLower pattern
    if pat.data.any (fun ch => ch = '*' || ch = '?') then wildMatch pat.data name.data
    else containsSub pat.data name.data

/-- `SlotResolver._matches_any_pattern`: the basename is lowercased once and
the patterns are tried in order until one matches. -/
def matchesAnyPattern (rex : RegexSearch) (file_name : String)
    (patterns : List String) : Bool :=
  let name := pyLower file_name
  patterns.any (fun p => matchesOnePattern rex name p)

/-- `app/domain/slot.py` `SlotMeta`: matching criteria of a slot. -/
structure SlotMeta where
  folder_hint : Option String := none
  file_hint : Option String := none
  filename_patterns : List String := []
  tags : List String := []
  allow_docx : Bool := false
deriving Repr, DecidableEq

/-- `app/domain/slot.py` `Slot`: a named, ordered position in the packet. -/
structure Slot where
  slot : Int
  name : String
  required : Bool := true
  meta : SlotMeta := {}
deriving Repr, DecidableEq

/-- `app/domain/slot_resolution.py` `SlotResolution`. -/
structure SlotResolution where
  slot : Slot
  candidate_path : Option String
  missing : Bool
  reason : Option String := none
deriving Repr, DecidableEq

/-- Python `", ".join(parts)`. -/
def joinParts : List String → String
  | [] => ""
  | [p] => p
  | p :: rest => p ++ ", " ++ joinParts rest

/-- Python `repr` of a list of (quote-free) strings, as interpolated by
`f"patterns={patterns}"`. -/
def pyReprStrList (xs : List String) : String :=
  "[" ++ joinParts (xs.map (fun s => "\x27" ++ s ++ "\x27")) ++ "]"

/-- `SlotResolver._generate_missing_reason`: enumerate the criteria that were
specified on the slot. -/
def missingReason (s : Slot) : String :=
  let parts : List String :=
    (if strTruthy s.meta.folder_hint then
      ["folder_hint=\x27" ++ optStr s.meta.folder_hint ++ "\x27"] else []) ++
    (if strTruthy s.meta.file_hint then
      ["file_hint=\x27" ++ optStr s.meta.file_hint ++ "\x27"] else []) ++
    (if s.meta.filename_patterns ≠ [] then
      ["patterns=" ++ pyReprStrList s.meta.filename_patterns] else [])
  if parts = [] then "No matching file found (pdf/docx)"
  else "No PDF matching criteria: " ++ joinParts parts

/-- The running `candidates` value of `SlotResolver._resolve_single_slot`
after its four narrowing steps: folder-hint filter, file-hint filter,
filename-pattern filter, extension filter, in that order. -/
def narrowCandidates (rex : RegexSearch) (s : Slot) (files : List String) :
    List String :=
  let c1 :=
    if strTruthy s.meta.folder_hint then
      files.filter (fun f => matchesFolderHint f (optStr s.meta.folder_hint))
    else files
  let c2 :=
    if strTruthy s.meta.file_hint then
      c1.filter (fun f => matchesFileHint (baseNameOf f) (optStr s.meta.file_hint))
    else c1
  let c3 :=
    if s.meta.filename_patterns ≠ [] then
      c2.filter (fun f => matchesAnyPattern rex (baseNameOf f) s.meta.filename_patterns)
    else c2
  if s.meta.allow_docx then
    c3.filter (fun f => pyEndsWith (pyLower f) (".pdf") || pyEndsWith (pyLower f) (".docx"))
  else
    c3.filter (fun f => pyEndsWith (pyLower f) (".pdf"))

/-- `SlotResolver._resolve_single_slot`: narrow the file index through the
folder-hint, file-hint, filename-pattern and extension filters in that order,
then select the first surviving candidate or report the slot missing. -/
def resolveSingleSlot (rex : RegexSearch) (s : Slot) (files : List String) :
    SlotResolution :=
  match narrowCandidates rex s files with
  | [] => ⟨s, none, true, some (missingReason s)⟩
  | f :: _ => ⟨s, some f, false, none⟩

/-- `SlotResolver.resolve`: one resolution per slot, in input order. -/
def resolveSlots (rex : RegexSearch) (slots : List Slot) (files : List String) :
    List SlotResolution :=
  slots.map (fun s => resolveSingleSlot rex s files)

/-- The first slot position that repeats an earlier one, scanning in input
order: the loop of `Manifest.__post_init__` raises at this position. -/
def firstDupPos (seen : List Int) : List Slot → Option Int
  | [] => none
  | s :: rest =>
    if s.slot ∈ seen then some s.slot else firstDupPos (s.slot :: seen) rest

/-- Comparison used to sort slots ascending by position. -/
def slotLe (a b : Slot) : Bool :=
  a.slot ≤ b.slot

/-- `app/domain/manifest.py` `Manifest`. -/
structure Manifest where
  slots : List Slot
deriving Repr, DecidableEq

/-- `Manifest.__post_init__`: reject a repeated slot position, otherwise sort
the slots ascending by position.  `Except.error` models the raised
`ValueError`. -/
def mkManifest (slots : List Slot) : Except String Manifest :=
  match firstDupPos [] slots with
  | some p => Except.error ("Duplicated slot position detected: " ++ toString p)
  | none => Except.ok ⟨slots.mergeSort slotLe⟩

/-- `Manifest.presence_mask`: one character per slot in manifest order. -/
def presenceMask (m : Manifest) (resolved_slots : List Int) : String :=
  String.mk (m.slots.map (fun s => if s.slot ∈ resolved_slots then '1' else '0'))

/-- `Manifest.required_missing`: positions of required slots not resolved, in
manifest order. -/
def requiredMissing (m : Manifest) (resolved_slots : List Int) : List Int :=
  (m.slots.filter (fun s => s.required && !(decide (s.slot ∈ resolved_slots)))).map
    (fun s => s.slot)

/-- Status field of the dict returned by `PacketService.process_packet`. -/
inductive PStatus where
  | ok
  | error
deriving Repr, DecidableEq

/-- Pure image of the dict returned by `PacketService.process_packet`,
extended with an explicit log of the download calls the run performed and the
list of files it materialized, so that the absence of side effects on the
abort path is part of the return value. -/
structure PipelineResult where
  status : PStatus
  missing_required : List Int
  download_calls : List String
  downloaded : List (Slot × String)
  artifact : Option (List String)
  mask : Option String
deriving Repr, DecidableEq

/-- The skip test of the download loop in `PacketService._download_resolved`:
`if resolution.missing or not resolution.candidate_path: continue`. -/
def skipResolution (r : SlotResolution) : Bool :=
  r.missing || !(strTruthy r.candidate_path)

/-- `PacketService._download_resolved` (download collaborator abstracted as
`download`): download each non-missing resolution, keeping the pairs whose
download produced a local path. -/
def downloadResolved (download : String → Option String)
    (resolutions : List SlotResolution) : List (Slot × String) :=
  resolutions.filterMap (fun r =>
    if skipResolution r then none
    else (download (optStr r.candidate_path)).map (fun lp => (r.slot, lp)))

/-- The remote paths `PacketService._download_resolved` passes to the download
collaborator, in order: one call per non-skipped resolution. -/
def downloadCallsOf (resolutions : List SlotResolution) : List String :=
  resolutions.filterMap (fun r =>
    if skipResolution r then none else some (optStr r.candidate_path))

/-- The separator-insertion and conversion walk of `PacketService._merge`:
`sep` is `_create_separator_pdf` (`none` models its exception path), `ensure`
is `_ensure_pdf`.  The first argument of the recursion is the sorted file
list, the second the running `current_group_name`. -/
def buildFinalPaths (sep : String → Option String) (ensure : String → Option String) :
    List (Slot × String) → Option String → List String
  | [], _ => []
  | (s, p) :: rest, cur =>
    (if some s.name = cur then [] else (sep s.name).toList) ++
      (ensure p).toList ++ buildFinalPaths sep ensure rest (some s.name)

/-- `PacketService._merge` followed by `merge_pdfs_in_order`: sort by slot
position, walk inserting separators and converting, and concatenate.  The
merged artifact is modelled as the ordered list of PDF sources handed to
`merge_pdfs_in_order`, which appends them in exactly that order; `none` is the
`return None` taken when there is nothing to merge. -/
def mergeStep (sep ensure : String → Option String)
    (downloaded : List (Slot × String)) : Option (List String) :=
  if downloaded.isEmpty then none
  else
    let sorted_files := downloaded.mergeSort (fun a b => slotLe a.1 b.1)
    let final_paths := buildFinalPaths sep ensure sorted_files none
    if final_paths.isEmpty then none else some final_paths

/-- `PacketService.process_packet`, from the point where the file index has
been enumerated: resolve the slots, gate on required-but-missing positions,
then download and merge.  The external collaborators (regex search, download,
separator creation, DOCX→PDF conversion) are parameters. -/
def processPacket (rex : RegexSearch) (download sep ensure : String → Option String)
    (m : Manifest) (files_index : List String) : PipelineResult :=
  let resolved := resolveSlots rex m.slots files_index
  let missing_required := resolved.filterMap (fun r =>
    if r.missing && r.slot.required then some r.slot.slot else none)
  if !missing_required.isEmpty then
    { status := PStatus.error
      missing_required := missing_required
      download_calls := []
      downloaded := []
      artifact := none
      mask := none }
  else
    let downloaded := downloadResolved download resolved
    let output := mergeStep sep ensure downloaded
    let resolved_slot_numbers := resolved.filterMap (fun r =>
      if r.missing then none else some r.slot.slot)
    { status := PStatus.ok
      missing_required := missing_required
      download_calls := downloadCallsOf resolved
      downloaded := downloaded
      artifact := output
      mask := some (presenceMask m resolved_slot_numbers) }

/-- Fixture slot at position 1, group B. -/
def wSlotP1 : Slot :=
  { slot := 1, name := "B" }

/-- Fixture slot at position 2, group A. -/
def wSlotP2 : Slot :=
  { slot := 2, name := "A" }

/-- The file hint used by the spec's worked example. -/
def hintPrimaFacie : String :=
  "prima facie renewed"

/-- Basename the example hint must match. -/
def namePrimaFacie : String :=
  "Carolina I-360 Prima Facie Renewed (06-25-2025).pdf"

/-- Basename the example hint must not match. -/
def namePetition : String :=
  "Carolina I-360 Petition.pdf"

/-- The example hint with its words reordered. -/
def hintPrimaFacieReordered : String :=
  "renewed facie prima"

/-- Modelled from the spec, §4.2: the conjunction of the four narrowing
stages as a single predicate on a candidate — pass the folder-hint filter when
a folder hint is specified, the file-hint filter when a file hint is
specified, the filename-pattern filter when patterns are specified, and the
extension filter. -/
def keepCandidate (rex : RegexSearch) (s : Slot) (f : String) : Bool :=
  (!(strTruthy s.meta.folder_hint) || matchesFolderHint f (optStr s.meta.folder_hint)) &&
    (!(strTruthy s.meta.file_hint) ||
      matchesFileHint (baseNameOf f) (optStr s.meta.file_hint)) &&
    (decide (s.meta.filename_patterns = []) ||
      matchesAnyPattern rex (baseNameOf f) s.meta.filename_patterns) &&
    (if s.meta.allow_docx then
      pyEndsWith (pyLower f) (".pdf") || pyEndsWith (pyLower f) (".docx")
    else pyEndsWith (pyLower f) (".pdf"))

/-- Fixture regex collaborator that reports every regex as invalid. -/
def wRex : RegexSearch :=
  fun _ _ => none

/-- Fixture slot that specifies all three matching criteria. -/
def wSlotFull : Slot :=
  { slot := 1
    name := "A"
    required := true
    meta :=
      { folder_hint := some "uscis"
        file_hint := some "receipt"
        filename_patterns := ["receipt"]
        tags := []
        allow_docx := false } }

/-- Fixture file index. -/
def wFiles : List String :=
  ["/c/uscis/receipt_2024.pdf", "/c/other/x.pdf"]

/-- The group name the walk of `PacketService._merge` carries after
processing a list: the name of its last file, or the incoming name when the
list is empty. -/
def lastGroupName (l : List (Slot × String)) (cur : Option String) : Option String :=
  match l.getLast? with
  | none => cur
  | some x => some x.1.name

/-- Fixture slot at position 1 in group A. -/
def cSlotA1 : Slot :=
  { slot := 1, name := "A" }

/-- Fixture slot at position 2 in group B. -/
def cSlotB2 : Slot :=
  { slot := 2, name := "B" }

/-- Fixture slot at position 3, again in group A. -/
def cSlotA3 : Slot :=
  { slot := 3, name := "A" }

/-- Fixture separator-page collaborator: always succeeds. -/
def cSep : String → Option String :=
  fun n => some ("sep:" ++ n)

/-- Fixture `_ensure_pdf` collaborator: keeps PDFs, fails on anything else. -/
def cEnsure : String → Option String :=
  fun p => if pyEndsWith (pyLower p) (".pdf") then some p else none

/-- Two downloaded files in two different groups. -/
def cDl2 : List (Slot × String) :=
  [(cSlotA1, "a.pdf"), (cSlotB2, "b.pdf")]

/-- Three downloaded files whose group names go A, B, A in position order. -/
def cDl3 : List (Slot × String) :=
  [(cSlotA1, "a1.pdf"), (cSlotB2, "b.pdf"), (cSlotA3, "a2.pdf")]

/-- Page contents of the fixture sources. -/
def cPages : String → List String :=
  fun p =>
    if p = "sep:A" then ["pA"]
    else if p = "a.pdf" then ["a1", "a2"]
    else if p = "sep:B" then ["pB"]
    else if p = "b.pdf" then ["b1", "b2", "b3"]
    else []

/-- Fixture downloaded list whose second group is a DOCX that will fail
conversion. -/
def cDlX : List (Slot × String) :=
  [(cSlotA1, "a.pdf"), (cSlotB2, "b.docx")]

/-- Fixture download collaborator that always succeeds. -/
def wDownload : String → Option String :=
  fun p => some p

/-- Fixture required slot whose folder hint no fixture file satisfies. -/
def wReqSlot : Slot :=
  { slot := 1, name := "A", required := true, meta := { folder_hint := some "uscis" } }

/-- Fixture optional slot with the same unsatisfiable folder hint. -/
def wOptSlot : Slot :=
  { slot := 2, name := "B", required := false, meta := { folder_hint := some "uscis" } }

/-- Fixture manifest with one required and one optional slot. -/
def wManifestReq : Manifest :=
  ⟨[wReqSlot, wOptSlot]⟩

/-- Fixture manifest with only the optional slot. -/
def wManifestOpt : Manifest :=
  ⟨[wOptSlot]⟩

/-- Fixture file index that satisfies no folder hint. -/
def wFilesNone : List String :=
  ["/c/other/x.pdf"]

/-- Fixture resolution at position 1 whose download will fail. -/
def wResFail : SlotResolution :=
  ⟨wSlotP1, some "p1.pdf", false, none⟩

/-- Fixture resolution at position 2 whose download succeeds. -/
def wResOk : SlotResolution :=
  ⟨wSlotP2, some "p2.pdf", false, none⟩

/-- Fixture download collaborator failing exactly on the first path. -/
def wDownloadFail : String → Option String :=
  fun p => if p = "p1.pdf" then none else some p

example : wildMatch ("id*.pdf").data ("id_alberto_2024.pdf").data = true := by decide

example : wildMatch ("*.pdf").data ("x.docx").data = false := by decide

example : wildMatch ("[a-c]x").data ("bx").data = true := by decide

example : wildMatch ("[!a]x?").data ("bxq").data = true := by decide

theorem containsSub_iff (needle hay : List Char) :
    containsSub needle hay = true ↔ needle <:+: hay := by
  induction hay with
  | nil => simp [containsSub, List.isPrefixOf_iff_prefix]
  | cons c t ih =>
    simp [containsSub, List.isPrefixOf_iff_prefix, ih, List.infix_cons_iff]

theorem slotLe_trans (a b c : Slot) :
    slotLe a b = true → slotLe b c = true → slotLe a c = true := by
  simp [slotLe]
  omega

theorem slotLe_total (a b : Slot) : (slotLe a b || slotLe b a) = true := by
  simp [slotLe]
  omega

/-- C5: for any manifest and any resolved set, the presence mask has exactly
one character per slot; its i-th character is `'1'` exactly when the i-th
slot's position (in manifest order) is resolved, and the mask does not depend
on the `required` flags. -/
theorem presence_mask_spec :
    ∀ (m : Manifest) (resolved : List Int),
      (presenceMask m resolved).length = m.slots.length ∧
      (∀ i : Nat,
        (presenceMask m resolved).data[i]? =
          (m.slots[i]?).map (fun s => if s.slot ∈ resolved then '1' else '0')) ∧
      (∀ f : Slot → Bool,
        presenceMask ⟨m.slots.map (fun s => { s with required := f s })⟩ resolved =
          presenceMask m resolved) := by
  intro m r
  refine ⟨?_, ?_, ?_⟩
  · simp [presenceMask, String.length]
  · intro i
    simp [presenceMask, List.getElem?_map]
  · intro f
    simp [presenceMask, List.map_map]
    rfl

theorem firstDupPos_none_iff :
    ∀ (l : List Slot) (seen : List Int),
      firstDupPos seen l = none ↔
        ((l.map (fun s => s.slot)).Nodup ∧ ∀ p ∈ l.map (fun s => s.slot), p ∉ seen) := by
  intro l
  induction l with
  | nil => intro seen; simp [firstDupPos]
  | cons s t ih =>
    intro seen
    by_cases hmem : s.slot ∈ seen
    · simp only [firstDupPos, if_pos hmem]
      constructor
      · intro h; exact absurd h (by simp)
      · rintro ⟨-, hall⟩
        exact absurd (hall s.slot (by simp)) (by simpa using hmem)
    · simp only [firstDupPos, if_neg hmem, ih]
      constructor
      · rintro ⟨hnd, hall⟩
        refine ⟨?_, ?_⟩
        · simp only [List.map_cons, List.nodup_cons]
          refine ⟨?_, hnd⟩
          intro hc
          exact absurd (by simp : s.slot ∈ s.slot :: seen) (by simpa using hall s.slot hc)
        · intro p hp
          simp only [List.map_cons, List.mem_cons] at hp
          rcases hp with hp | hp
          · subst hp; exact hmem
          · intro hpseen
            exact absurd (by simp [hpseen] : p ∈ s.slot :: seen) (by simpa using hall p hp)
      · rintro ⟨hnd, hall⟩
        simp only [List.map_cons, List.nodup_cons] at hnd
        refine ⟨hnd.2, ?_⟩
        intro p hp
        simp only [List.mem_cons]
        push_neg
        refine ⟨?_, ?_⟩
        · intro hps; subst hps; exact hnd.1 hp
        · exact hall p (by simp [hp])

/-- C8 counterexample: constructing a Manifest from the empty slot list does
not fail — it succeeds with an empty manifest, contradicting the claim that
construction fails exactly when the list repeats a position or is empty. -/
theorem mkManifest_empty_ok_cex : mkManifest [] = Except.ok ⟨[]⟩ := by
  simp [mkManifest, firstDupPos]

/-- C8 (amended): constructing a Manifest fails exactly when the slot list
repeats a position (the empty list is accepted and yields an empty manifest),
and on success the resulting slots are the given slots sorted ascending by
position. -/
theorem mkManifest_spec :
    ∀ slots : List Slot,
      ((∃ e, mkManifest slots = Except.error e) ↔
        ¬ (slots.map (fun s => s.slot)).Nodup) ∧
      (∀ m : Manifest, mkManifest slots = Except.ok m →
        m.slots.Perm slots ∧ m.slots.Pairwise (fun a b => a.slot ≤ b.slot)) ∧
      mkManifest [] = Except.ok ⟨[]⟩ := by
  intro slots
  refine ⟨?_, ?_, by simp [mkManifest, firstDupPos]⟩
  · constructor
    · rintro ⟨e, he⟩
      intro hnd
      have hnone : firstDupPos [] slots = none := by
        rw [firstDupPos_none_iff]
        exact ⟨hnd, by simp⟩
      simp [mkManifest, hnone] at he
    · intro hnd
      rcases hsome : firstDupPos [] slots with _ | p
      · exact absurd ((firstDupPos_none_iff slots []).mp hsome).1 hnd
      · exact ⟨"Duplicated slot position detected: " ++ toString p,
          by simp [mkManifest, hsome]⟩
  · intro m hm
    rcases hsome : firstDupPos [] slots with _ | p
    · simp only [mkManifest, hsome] at hm
      have hm' : m.slots = slots.mergeSort slotLe := by
        cases hm' : m
        simp [hm'] at hm
        simp [← hm]
      refine ⟨?_, ?_⟩
      · rw [hm']
        exact List.mergeSort_perm slots slotLe
      · rw [hm']
        have hs := @List.sorted_mergeSort Slot slotLe slotLe_trans slotLe_total slots
        exact hs.imp (fun h => by simpa [slotLe] using h)
    · simp [mkManifest, hsome] at hm

theorem mkManifest_spec_witness :
    (mkManifest [wSlotP1, wSlotP2] = Except.ok ⟨[wSlotP1, wSlotP2]⟩) ∧
    (⟨[wSlotP1, wSlotP2]⟩ : Manifest).slots.Perm [wSlotP1, wSlotP2] ∧
    (⟨[wSlotP1, wSlotP2]⟩ : Manifest).slots.Pairwise (fun a b => a.slot ≤ b.slot) :=
  have hok : mkManifest [wSlotP1, wSlotP2] = Except.ok ⟨[wSlotP1, wSlotP2]⟩ := by
    have hs : [wSlotP1, wSlotP2].mergeSort slotLe = [wSlotP1, wSlotP2] :=
      List.mergeSort_of_sorted (by decide)
    have hdup : firstDupPos [] [wSlotP1, wSlotP2] = none := by decide
    simp [mkManifest, hdup, hs]
  ⟨hok, (mkManifest_spec [wSlotP1, wSlotP2]).2.1 ⟨[wSlotP1, wSlotP2]⟩ hok⟩

/-- C6: the file-hint filter keeps a candidate iff every whitespace-separated
word of the normalized hint occurs as a substring of the normalized basename;
the test is independent of word order; and on the spec's concrete example the
hint matches the renewed-notice basename and not the petition basename. -/
theorem file_hint_filter_spec :
    (∀ (name hint : String),
        matchesFileHint name hint = true ↔
          ∀ w ∈ hintWords hint, w <:+: (normalizeText name).data) ∧
    (∀ (name h1 h2 : String),
        (hintWords h1).Perm (hintWords h2) →
        matchesFileHint name h1 = matchesFileHint name h2) ∧
    matchesFileHint namePrimaFacie hintPrimaFacie = true ∧
    matchesFileHint namePetition hintPrimaFacie = false := by
  have hchar : ∀ (name hint : String),
      matchesFileHint name hint = true ↔
        ∀ w ∈ hintWords hint, w <:+: (normalizeText name).data := by
    intro name hint
    simp [matchesFileHint, List.all_eq_true, containsSub_iff]
  refine ⟨hchar, ?_, by decide, by decide⟩
  intro name h1 h2 hperm
  by_cases hb : matchesFileHint name h2 = true
  · rw [hb, hchar]
    intro w hw
    exact (hchar name h2).mp hb w (hperm.mem_iff.mp hw)
  · have h1f : matchesFileHint name h1 ≠ true := by
      intro hc
      exact hb ((hchar name h2).mpr
        (fun w hw => (hchar name h1).mp hc w (hperm.mem_iff.mpr hw)))
    simp only [Bool.not_eq_true] at h1f hb
    rw [h1f, hb]

theorem file_hint_filter_spec_witness :
    (hintWords hintPrimaFacie).Perm (hintWords hintPrimaFacieReordered) ∧
    matchesFileHint namePrimaFacie hintPrimaFacie =
      matchesFileHint namePrimaFacie hintPrimaFacieReordered :=
  ⟨by decide,
    file_hint_filter_spec.2.1 namePrimaFacie hintPrimaFacie hintPrimaFacieReordered
      (by decide)⟩

theorem part_infix_joinParts :
    ∀ (parts : List String) (p : String), p ∈ parts →
      p.data <:+: (joinParts parts).data := by
  intro parts
  induction parts with
  | nil => intro p hp; simp at hp
  | cons q rest ih =>
    intro p hp
    rcases List.mem_cons.mp hp with hp | hp
    · subst hp
      cases rest with
      | nil => simp [joinParts]
      | cons r t =>
        show p.data <:+: (p ++ ", " ++ joinParts (r :: t)).data
        rw [String.data_append, String.data_append]
        exact ⟨[], (", ").data ++ (joinParts (r :: t)).data, by simp⟩
    · cases rest with
      | nil => simp at hp
      | cons r t =>
        show p.data <:+: (q ++ ", " ++ joinParts (r :: t)).data
        rw [String.data_append, String.data_append]
        obtain ⟨u, v, huv⟩ := ih p hp
        exact ⟨(q.data ++ (", ").data) ++ u, v, by rw [← huv]; simp⟩

theorem narrowCandidates_eq_filter (rex : RegexSearch) (s : Slot) (files : List String) :
    narrowCandidates rex s files = files.filter (keepCandidate rex s) := by
  cases h1 : strTruthy s.meta.folder_hint <;>
    cases h2 : strTruthy s.meta.file_hint <;>
    by_cases h3 : s.meta.filename_patterns = [] <;>
    cases h4 : s.meta.allow_docx <;>
    · simp only [narrowCandidates, h1, h2, h3, h4, Bool.false_eq_true, ne_eq,
        not_true_eq_false, not_false_eq_true, if_true, if_false, ite_true, ite_false,
        if_neg, if_pos, List.filter_filter]
      refine List.filter_congr (fun f _ => ?_)
      simp [keepCandidate, h1, h2, h3, h4]
      try ac_rfl

theorem strContains_of_mem_parts (pre : String) (parts : List String) (p : String)
    (hp : p ∈ parts) : strContains (pre ++ joinParts parts) p = true := by
  rw [strContains, containsSub_iff, String.data_append]
  obtain ⟨u, v, huv⟩ := part_infix_joinParts parts p hp
  exact ⟨pre.data ++ u, v, by rw [← huv]; simp⟩

/-- C4: per-slot resolution narrows the full file index through the
folder-hint, file-hint, filename-pattern and extension filters in that fixed
order — equivalently, it keeps exactly the candidates passing all specified
criteria plus the extension rule — and returns the first survivor in
file-index order (several survivors are not an error); with no survivor it
reports `missing` with a reason naming each specified criterion. -/
theorem resolve_single_slot_spec :
    ∀ (rex : RegexSearch) (s : Slot) (files : List String),
      (resolveSingleSlot rex s files =
        (match files.filter (keepCandidate rex s) with
         | [] => ⟨s, none, true, some (missingReason s)⟩
         | f :: _ => ⟨s, some f, false, none⟩)) ∧
      (strTruthy s.meta.folder_hint = true →
        strContains (missingReason s)
          ("folder_hint=\x27" ++ optStr s.meta.folder_hint ++ "\x27") = true) ∧
      (strTruthy s.meta.file_hint = true →
        strContains (missingReason s)
          ("file_hint=\x27" ++ optStr s.meta.file_hint ++ "\x27") = true) ∧
      (s.meta.filename_patterns ≠ [] →
        strContains (missingReason s)
          ("patterns=" ++ pyReprStrList s.meta.filename_patterns) = true) := by
  intro rex s files
  refine ⟨?_, ?_, ?_, ?_⟩
  · rw [resolveSingleSlot, narrowCandidates_eq_filter]
  · intro h
    unfold missingReason
    simp only [h, ite_true, if_true]
    rw [if_neg (by simp)]
    exact strContains_of_mem_parts _ _ _ (by simp)
  · intro h
    unfold missingReason
    simp only [h, ite_true, if_true]
    rw [if_neg (by simp)]
    exact strContains_of_mem_parts _ _ _ (by simp)
  · intro h
    unfold missingReason
    simp only [h, ite_true, if_true, ne_eq, not_false_eq_true]
    rw [if_neg (by simp)]
    exact strContains_of_mem_parts _ _ _ (by simp)

theorem resolve_single_slot_spec_witness :
    (strTruthy wSlotFull.meta.folder_hint = true ∧
      strTruthy wSlotFull.meta.file_hint = true ∧
      wSlotFull.meta.filename_patterns ≠ []) ∧
    strContains (missingReason wSlotFull)
      ("folder_hint=\x27" ++ optStr wSlotFull.meta.folder_hint ++ "\x27") = true ∧
    strContains (missingReason wSlotFull)
      ("file_hint=\x27" ++ optStr wSlotFull.meta.file_hint ++ "\x27") = true ∧
    strContains (missingReason wSlotFull)
      ("patterns=" ++ pyReprStrList wSlotFull.meta.filename_patterns) = true :=
  ⟨⟨by decide, by decide, by decide⟩,
    (resolve_single_slot_spec wRex wSlotFull wFiles).2.1 (by decide),
    (resolve_single_slot_spec wRex wSlotFull wFiles).2.2.1 (by decide),
    (resolve_single_slot_spec wRex wSlotFull wFiles).2.2.2 (by decide)⟩

theorem matchesOnePattern_iff (rex : RegexSearch) (nm p : String) :
    matchesOnePattern rex nm p = true ↔
      p ≠ "" ∧
        (if pyStartsWith (pyLower p) ("regex:") = true then
          rex (String.mk (p.data.drop 6)) nm = some true
        else if (pyLower p).data.any (fun ch => ch = '*' || ch = '?') = true then
          wildMatch (pyLower p).data nm.data = true
        else containsSub (pyLower p).data nm.data = true) := by
  unfold matchesOnePattern
  by_cases h0 : p = ""
  · simp [h0]
  · by_cases h1 : pyStartsWith (pyLower p) ("regex:") = true
    · cases hrex : rex (String.mk (p.data.drop 6)) nm with
      | none => simp [h0, h1, hrex]
      | some b => cases b <;> simp [h0, h1, hrex]
    · cases h2 : (pyLower p).data.any (fun ch => ch = '*' || ch = '?') <;>
        simp [h0, h1, h2]

/-- C7: the filename-pattern filter keeps a candidate iff some pattern
matches its basename, where a `regex:` pattern is an unanchored
case-insensitive regex search on the lowercased basename, a pattern with `*`
or `?` is a shell-style wildcard match on the lowercased basename, and any
other pattern is a case-insensitive substring match; a pattern whose regex
the collaborator rejects as invalid matches nothing and resolution is not
aborted. -/
theorem pattern_filter_spec :
    ∀ (rex : RegexSearch) (file_name : String) (patterns : List String),
      (matchesAnyPattern rex file_name patterns = true ↔
        ∃ p ∈ patterns, p ≠ "" ∧
          (if pyStartsWith (pyLower p) ("regex:") = true then
            rex (String.mk (p.data.drop 6)) (pyLower file_name) = some true
          else if (pyLower p).data.any (fun ch => ch = '*' || ch = '?') = true then
            wildMatch (pyLower p).data (pyLower file_name).data = true
          else containsSub (pyLower p).data (pyLower file_name).data = true)) ∧
      (∀ p : String, pyStartsWith (pyLower p) ("regex:") = true →
        rex (String.mk (p.data.drop 6)) (pyLower file_name) = none →
        matchesOnePattern rex (pyLower file_name) p = false) := by
  intro rex fn patterns
  constructor
  · rw [matchesAnyPattern]
    rw [List.any_eq_true]
    exact exists_congr (fun p => and_congr_right
      (fun _ => matchesOnePattern_iff rex (pyLower fn) p))
  · intro p h1 h2
    by_cases h0 : p = "" <;> simp [matchesOnePattern, h0, h1, h2]

theorem pattern_filter_spec_witness :
    pyStartsWith (pyLower ("regex:[")) ("regex:") = true ∧
    wRex (String.mk (("regex:[").data.drop 6)) (pyLower ("x.pdf")) = none ∧
    matchesOnePattern wRex (pyLower ("x.pdf")) ("regex:[") = false :=
  ⟨by decide, rfl,
    (pattern_filter_spec wRex ("x.pdf") [("regex:[")]).2 ("regex:[") (by decide) rfl⟩

theorem lastGroupName_cons (s : Slot) (p : String) (t : List (Slot × String))
    (cur : Option String) :
    lastGroupName ((s, p) :: t) cur = lastGroupName t (some s.name) := by
  cases t with
  | nil => rfl
  | cons y u =>
    rcases h : (y :: u).getLast? with _ | z
    · exact absurd (List.getLast?_eq_none_iff.mp h) (by simp)
    · simp [lastGroupName, List.getLast?_cons_cons, h]

theorem buildFinalPaths_append (sep ensure : String → Option String) :
    ∀ (l1 l2 : List (Slot × String)) (cur : Option String),
      buildFinalPaths sep ensure (l1 ++ l2) cur =
        buildFinalPaths sep ensure l1 cur ++
          buildFinalPaths sep ensure l2 (lastGroupName l1 cur) := by
  intro l1
  induction l1 with
  | nil => intro l2 cur; simp [buildFinalPaths, lastGroupName]
  | cons x t ih =>
    intro l2 cur
    obtain ⟨s, p⟩ := x
    simp [buildFinalPaths, ih, lastGroupName_cons]

theorem buildFinalPaths_run_same (sep ensure : String → Option String) (g : String) :
    ∀ run : List (Slot × String), (∀ x ∈ run, x.1.name = g) →
      buildFinalPaths sep ensure run (some g) =
        run.filterMap (fun x => ensure x.2) := by
  intro run
  induction run with
  | nil => intro _; rfl
  | cons x t ih =>
    intro hall
    obtain ⟨s, p⟩ := x
    have hname : s.name = g := hall (s, p) (by simp)
    rw [buildFinalPaths, hname, if_pos rfl, ih (fun y hy => hall y (by simp [hy]))]
    cases he : ensure p <;> simp [he, List.filterMap_cons]

theorem buildFinalPaths_run_new (sep ensure : String → Option String) (g : String)
    (run : List (Slot × String)) (cur : Option String)
    (hall : ∀ x ∈ run, x.1.name = g) (hne : run ≠ []) (hcur : cur ≠ some g) :
    buildFinalPaths sep ensure run cur =
      (sep g).toList ++ run.filterMap (fun x => ensure x.2) := by
  cases run with
  | nil => exact absurd rfl hne
  | cons x t =>
    obtain ⟨s, p⟩ := x
    have hname : s.name = g := hall (s, p) (by simp)
    rw [buildFinalPaths, hname,
      if_neg (fun hc => hcur hc.symm),
      buildFinalPaths_run_same sep ensure g t (fun y hy => hall y (by simp [hy]))]
    cases he : ensure p <;> simp [he, List.filterMap_cons]

theorem lastGroupName_run (g : String) (run : List (Slot × String))
    (cur : Option String) (hall : ∀ x ∈ run, x.1.name = g) (hne : run ≠ []) :
    lastGroupName run cur = some g := by
  rcases hlast : run.getLast? with _ | x
  · exact absurd (List.getLast?_eq_none_iff.mp hlast) hne
  · have hx : x ∈ run := List.mem_of_mem_getLast? (by simp [hlast])
    simp [lastGroupName, hlast, hall x hx]

theorem lastGroupName_append (l1 l2 : List (Slot × String)) (cur : Option String)
    (h2 : l2 ≠ []) : lastGroupName (l1 ++ l2) cur = lastGroupName l2 cur := by
  simp [lastGroupName, List.getLast?_append_of_ne_nil l1 h2]

theorem mergeStep_decomp (sep ensure : String → Option String)
    (dl l1 run l2 : List (Slot × String)) (g sp : String)
    (hsort : dl.mergeSort (fun a b => slotLe a.1 b.1) = l1 ++ run ++ l2)
    (hne : run ≠ []) (hall : ∀ x ∈ run, x.1.name = g)
    (hl1 : lastGroupName l1 none ≠ some g) (hsep : sep g = some sp) :
    mergeStep sep ensure dl =
      some (buildFinalPaths sep ensure l1 none ++
        (sp :: run.filterMap (fun x => ensure x.2)) ++
        buildFinalPaths sep ensure l2 (some g)) := by
  have hdl : ¬ dl.isEmpty = true := by
    intro h
    rw [List.isEmpty_iff] at h
    subst h
    rw [List.mergeSort_nil] at hsort
    have : run = [] := by
      rcases List.append_eq_nil.mp hsort.symm with ⟨h1, -⟩
      exact (List.append_eq_nil.mp h1).2
    exact hne this
  have hbuild : buildFinalPaths sep ensure (l1 ++ run ++ l2) none =
      buildFinalPaths sep ensure l1 none ++
        (sp :: run.filterMap (fun x => ensure x.2)) ++
        buildFinalPaths sep ensure l2 (some g) := by
    rw [buildFinalPaths_append sep ensure (l1 ++ run) l2 none,
      buildFinalPaths_append sep ensure l1 run none,
      buildFinalPaths_run_new sep ensure g run (lastGroupName l1 none) hall hne hl1,
      lastGroupName_append l1 run none hne,
      lastGroupName_run g run none hall hne, hsep]
    simp
  rw [mergeStep, if_neg hdl]
  simp only [hsort, hbuild]
  rw [if_neg (by simp)]

theorem cDl2_sorted :
    cDl2.mergeSort (fun a b => slotLe a.1 b.1) = cDl2 :=
  List.mergeSort_of_sorted (by decide)

theorem cDl3_sorted :
    cDl3.mergeSort (fun a b => slotLe a.1 b.1) = cDl3 :=
  List.mergeSort_of_sorted (by decide)

/-- C2 counterexample: with slots named A, B, A at positions 1, 2, 3 the
merge walk emits a separator for the name A twice — once per maximal run —
so a group name does not receive exactly one separator page. -/
theorem merge_sep_per_name_cex :
    mergeStep cSep cEnsure cDl3 =
      some ["sep:A", "a1.pdf", "sep:B", "b.pdf", "sep:A", "a2.pdf"] ∧
    ["sep:A", "a1.pdf", "sep:B", "b.pdf", "sep:A", "a2.pdf"].count ("sep:A") = 2 := by
  constructor
  · rw [mergeStep, if_neg (by decide)]
    simp only [cDl3_sorted]
    decide
  · decide

theorem pairSlotLe_trans (a b c : Slot × String) :
    slotLe a.1 b.1 = true → slotLe b.1 c.1 = true → slotLe a.1 c.1 = true := by
  simp [slotLe]
  omega

theorem pairSlotLe_total (a b : Slot × String) :
    (slotLe a.1 b.1 || slotLe b.1 a.1) = true := by
  simp [slotLe]
  omega

/-- C2 (amended): in the assembled artifact the resolved files appear sorted
ascending by slot position; each maximal run of consecutive same-named files
receives exactly one separator page, inserted immediately before the run's
first file — but a name that recurs in a later, non-adjacent run receives a
fresh separator for that run; the spec's 1+2+1+3 = 7 page example holds. -/
theorem merge_grouping_spec :
    (∀ (sep ensure : String → Option String) (dl l1 run l2 : List (Slot × String))
        (g sp : String),
      dl.mergeSort (fun a b => slotLe a.1 b.1) = l1 ++ run ++ l2 →
      run ≠ [] →
      (∀ x ∈ run, x.1.name = g) →
      lastGroupName l1 none ≠ some g →
      sep g = some sp →
      mergeStep sep ensure dl =
        some (buildFinalPaths sep ensure l1 none ++
          (sp :: run.filterMap (fun x => ensure x.2)) ++
          buildFinalPaths sep ensure l2 (some g))) ∧
    (∀ dl : List (Slot × String),
      (dl.mergeSort (fun a b => slotLe a.1 b.1)).Pairwise
        (fun a b => a.1.slot ≤ b.1.slot)) ∧
    (((mergeStep cSep cEnsure cDl2).getD []).map cPages).flatten =
      ["pA", "a1", "a2", "pB", "b1", "b2", "b3"] := by
  refine ⟨mergeStep_decomp, ?_, ?_⟩
  · intro dl
    have hs := @List.sorted_mergeSort (Slot × String) (fun a b => slotLe a.1 b.1)
      pairSlotLe_trans pairSlotLe_total dl
    exact hs.imp (fun h => by simpa [slotLe] using h)
  · have hm : mergeStep cSep cEnsure cDl2 = some ["sep:A", "a.pdf", "sep:B", "b.pdf"] := by
      rw [mergeStep, if_neg (by decide)]
      simp only [cDl2_sorted]
      decide
    rw [hm]
    decide

theorem merge_grouping_spec_witness :
    mergeStep cSep cEnsure cDl2 =
      some (buildFinalPaths cSep cEnsure [(cSlotA1, "a.pdf")] none ++
        (("sep:B") :: [(cSlotB2, "b.pdf")].filterMap (fun x => cEnsure x.2)) ++
        buildFinalPaths cSep cEnsure [] (some ("B"))) :=
  merge_grouping_spec.1 cSep cEnsure cDl2 [(cSlotA1, "a.pdf")] [(cSlotB2, "b.pdf")] []
    ("B") ("sep:B") (by rw [cDl2_sorted]; decide) (by decide) (by decide) (by decide)
    (by decide)

theorem cDlX_sorted :
    cDlX.mergeSort (fun a b => slotLe a.1 b.1) = cDlX :=
  List.mergeSort_of_sorted (by decide)

/-- C10: the separator page of a group is emitted before any of the group's
conversions is attempted, so when every file of a maximal run fails
conversion the artifact is still produced and still contains that run's
separator, with the run contributing no content page after it. -/
theorem separator_survives_failed_group :
    ∀ (sep ensure : String → Option String) (dl l1 run l2 : List (Slot × String))
      (g sp : String),
      dl.mergeSort (fun a b => slotLe a.1 b.1) = l1 ++ run ++ l2 →
      run ≠ [] →
      (∀ x ∈ run, x.1.name = g) →
      lastGroupName l1 none ≠ some g →
      sep g = some sp →
      (∀ x ∈ run, ensure x.2 = none) →
      mergeStep sep ensure dl =
        some (buildFinalPaths sep ensure l1 none ++
          sp :: buildFinalPaths sep ensure l2 (some g)) := by
  intro sep ensure dl l1 run l2 g sp h1 h2 h3 h4 h5 h6
  have hd := mergeStep_decomp sep ensure dl l1 run l2 g sp h1 h2 h3 h4 h5
  have hfm : run.filterMap (fun x => ensure x.2) = [] := by
    rw [List.filterMap_eq_nil_iff]
    exact h6
  rw [hd, hfm]
  simp

theorem separator_survives_failed_group_witness :
    mergeStep cSep cEnsure cDlX =
      some (buildFinalPaths cSep cEnsure [(cSlotA1, "a.pdf")] none ++
        ("sep:B") :: buildFinalPaths cSep cEnsure [] (some ("B"))) :=
  separator_survives_failed_group cSep cEnsure cDlX [(cSlotA1, "a.pdf")]
    [(cSlotB2, "b.docx")] [] ("B") ("sep:B") (by rw [cDlX_sorted]; decide) (by decide)
    (by decide) (by decide) (by decide) (by decide)

theorem resolveSingleSlot_slot (rex : RegexSearch) (s : Slot) (files : List String) :
    (resolveSingleSlot rex s files).slot = s := by
  unfold resolveSingleSlot
  split <;> rfl

theorem filterMap_if_eq_map_filter {α β : Type} (p : α → Bool) (g : α → β) :
    ∀ l : List α,
      l.filterMap (fun a => if p a then some (g a) else none) = (l.filter p).map g := by
  intro l
  induction l with
  | nil => rfl
  | cons a t ih =>
    by_cases h : p a = true
    · simp [List.filterMap_cons, List.filter_cons, h, ih]
    · simp [List.filterMap_cons, List.filter_cons, h, ih]

theorem gate_list_eq (rex : RegexSearch) (files : List String) (slots : List Slot) :
    (resolveSlots rex slots files).filterMap (fun r =>
        if r.missing && r.slot.required then some r.slot.slot else none) =
      (slots.filter (fun s =>
        (resolveSingleSlot rex s files).missing && s.required)).map
        (fun s => s.slot) := by
  rw [resolveSlots, filterMap_if_eq_map_filter, List.filter_map, List.map_map]
  rw [show ((fun r : SlotResolution => r.missing && r.slot.required) ∘
        fun s => resolveSingleSlot rex s files) =
      (fun s => (resolveSingleSlot rex s files).missing && s.required) from
    funext (fun s => by simp [Function.comp, resolveSingleSlot_slot])]
  exact List.map_congr_left (fun s _ => by simp [Function.comp, resolveSingleSlot_slot])

theorem mem_downloadResolved (download : String → Option String)
    (res : List SlotResolution) (pr : Slot × String)
    (h : pr ∈ downloadResolved download res) :
    ∃ r ∈ res, r.missing = false ∧ r.slot = pr.1 := by
  rw [downloadResolved] at h
  obtain ⟨r, hr, hmap⟩ := List.mem_filterMap.mp h
  by_cases hskip : skipResolution r = true
  · rw [if_pos hskip] at hmap
    exact absurd hmap (by simp)
  · rw [if_neg hskip] at hmap
    obtain ⟨lp, hlp, heq⟩ := Option.map_eq_some'.mp hmap
    refine ⟨r, hr, ?_, ?_⟩
    · simp [skipResolution] at hskip
      exact hskip.1
    · exact (congrArg Prod.fst heq).symm ▸ rfl

/-- C1: when at least one required slot is unresolved, the pipeline aborts
with an error reporting the required-but-missing positions in manifest order,
makes no download call, downloads nothing, and produces no artifact and no
mask; when no required slot is missing it proceeds with status ok, and
missing optional slots are simply dropped — everything downloaded stems from
a non-missing resolution. -/
theorem required_gate_spec :
    ∀ (rex : RegexSearch) (download sep ensure : String → Option String)
      (m : Manifest) (files : List String),
      ((resolveSlots rex m.slots files).filterMap (fun r =>
          if r.missing && r.slot.required then some r.slot.slot else none) ≠ [] →
        processPacket rex download sep ensure m files =
          { status := PStatus.error
            missing_required :=
              (m.slots.filter (fun s =>
                (resolveSingleSlot rex s files).missing && s.required)).map
                (fun s => s.slot)
            download_calls := []
            downloaded := []
            artifact := none
            mask := none }) ∧
      ((resolveSlots rex m.slots files).filterMap (fun r =>
          if r.missing && r.slot.required then some r.slot.slot else none) = [] →
        (processPacket rex download sep ensure m files).status = PStatus.ok ∧
        ∀ pr ∈ (processPacket rex download sep ensure m files).downloaded,
          ∃ r ∈ resolveSlots rex m.slots files, r.missing = false ∧ r.slot = pr.1) := by
  intro rex download sep ensure m files
  constructor
  · intro h
    have hie : ((resolveSlots rex m.slots files).filterMap (fun r =>
        if r.missing && r.slot.required then some r.slot.slot else none)).isEmpty = false := by
      rcases hX : (resolveSlots rex m.slots files).filterMap (fun r =>
          if r.missing && r.slot.required then some r.slot.slot else none) with _ | ⟨a, t⟩
      · exact absurd hX h
      · rw [hX]
        rfl
    simp only [processPacket, hie, Bool.not_false, if_true, ite_true]
    rw [gate_list_eq]
  · intro h
    have hie : ((resolveSlots rex m.slots files).filterMap (fun r =>
        if r.missing && r.slot.required then some r.slot.slot else none)).isEmpty = true := by
      rw [h]
      rfl
    simp only [processPacket, hie, Bool.not_true, Bool.false_eq_true, if_false, ite_false]
    refine ⟨by trivial, ?_⟩
    intro pr hpr
    exact mem_downloadResolved download (resolveSlots rex m.slots files) pr hpr

theorem required_gate_spec_witness :
    ((resolveSlots wRex wManifestReq.slots wFilesNone).filterMap (fun r =>
        if r.missing && r.slot.required then some r.slot.slot else none) ≠ []) ∧
    processPacket wRex wDownload cSep cEnsure wManifestReq wFilesNone =
      { status := PStatus.error
        missing_required :=
          (wManifestReq.slots.filter (fun s =>
            (resolveSingleSlot wRex s wFilesNone).missing && s.required)).map
            (fun s => s.slot)
        download_calls := []
        downloaded := []
        artifact := none
        mask := none } :=
  ⟨by decide,
    (required_gate_spec wRex wDownload cSep cEnsure wManifestReq wFilesNone).1 (by decide)⟩

/-- C3: after the gate passes, a failing download excludes exactly that one
file from the downloaded list, a failing DOCX conversion removes exactly that
file's page contribution from the assembly walk (its group's separator logic
is untouched), and in both cases the pipeline still completes with status ok
— no error is raised even when the affected slot is required. -/
theorem per_file_drop_spec :
    (∀ (download : String → Option String) (l1 l2 : List SlotResolution)
        (r : SlotResolution),
      skipResolution r = false →
      download (optStr r.candidate_path) = none →
      downloadResolved download (l1 ++ r :: l2) =
        downloadResolved download l1 ++ downloadResolved download l2) ∧
    (∀ (sep ensure : String → Option String) (l1 l2 : List (Slot × String))
        (x : Slot × String) (cur : Option String),
      ensure x.2 = none →
      buildFinalPaths sep ensure (l1 ++ x :: l2) cur =
        buildFinalPaths sep ensure l1 cur ++
          ((if some x.1.name = lastGroupName l1 cur then [] else (sep x.1.name).toList) ++
            buildFinalPaths sep ensure l2 (some x.1.name))) ∧
    (∀ (rex : RegexSearch) (download sep ensure : String → Option String)
        (m : Manifest) (files : List String),
      (resolveSlots rex m.slots files).filterMap (fun r =>
          if r.missing && r.slot.required then some r.slot.slot else none) = [] →
      (processPacket rex download sep ensure m files).status = PStatus.ok) := by
  refine ⟨?_, ?_, ?_⟩
  · intro download l1 l2 r hskip hdl
    simp only [downloadResolved, List.filterMap_append, List.filterMap_cons, hskip,
      Bool.false_eq_true, if_false, ite_false, hdl, Option.map_none']
  · intro sep ensure l1 l2 x cur he
    rw [buildFinalPaths_append sep ensure l1 (x :: l2) cur]
    obtain ⟨s, p⟩ := x
    rw [buildFinalPaths, he]
    simp
  · intro rex download sep ensure m files h
    have hie : ((resolveSlots rex m.slots files).filterMap (fun r =>
        if r.missing && r.slot.required then some r.slot.slot else none)).isEmpty = true := by
      rw [h]
      rfl
    simp only [processPacket, hie, Bool.not_true, Bool.false_eq_true, if_false, ite_false]

theorem per_file_drop_spec_witness :
    (skipResolution wResFail = false ∧
      wDownloadFail (optStr wResFail.candidate_path) = none ∧
      downloadResolved wDownloadFail ([wResOk] ++ wResFail :: [wResOk]) =
        downloadResolved wDownloadFail [wResOk] ++ downloadResolved wDownloadFail [wResOk]) ∧
    (cEnsure (cSlotB2, "b.docx").2 = none ∧
      buildFinalPaths cSep cEnsure ([(cSlotA1, "a.pdf")] ++ (cSlotB2, "b.docx") :: []) none =
        buildFinalPaths cSep cEnsure [(cSlotA1, "a.pdf")] none ++
          ((if some (cSlotB2, "b.docx").1.name =
              lastGroupName [(cSlotA1, "a.pdf")] none then []
            else (cSep (cSlotB2, "b.docx").1.name).toList) ++
            buildFinalPaths cSep cEnsure [] (some (cSlotB2, "b.docx").1.name))) ∧
    (processPacket wRex wDownload cSep cEnsure wManifestOpt wFilesNone).status =
      PStatus.ok :=
  ⟨⟨by decide, by decide,
      per_file_drop_spec.1 wDownloadFail [wResOk] [wResOk] wResFail (by decide) (by decide)⟩,
    ⟨by decide,
      per_file_drop_spec.2.1 cSep cEnsure [(cSlotA1, "a.pdf")] [] (cSlotB2, "b.docx") none
        (by decide)⟩,
    per_file_drop_spec.2.2 wRex wDownload cSep cEnsure wManifestOpt wFilesNone (by decide)⟩

/-- C9: the merge step produces no artifact exactly when there is nothing to
merge — no downloaded file at all, or an empty final sequence after per-file
drops — and in that case the request still ends with status ok and a `none`
artifact, an outcome distinct from the required-slot gate failure, whose
status is `error`. -/
theorem nothing_to_merge_spec :
    (∀ (sep ensure : String → Option String) (dl : List (Slot × String)),
      mergeStep sep ensure dl = none ↔
        (dl = [] ∨
          buildFinalPaths sep ensure
            (dl.mergeSort (fun a b => slotLe a.1 b.1)) none = [])) ∧
    (∀ (rex : RegexSearch) (download sep ensure : String → Option String)
        (m : Manifest) (files : List String),
      (resolveSlots rex m.slots files).filterMap (fun r =>
          if r.missing && r.slot.required then some r.slot.slot else none) = [] →
      ((processPacket rex download sep ensure m files).artifact = none ↔
        mergeStep sep ensure
          (downloadResolved download (resolveSlots rex m.slots files)) = none) ∧
      (processPacket rex download sep ensure m files).status = PStatus.ok ∧
      PStatus.ok ≠ PStatus.error) := by
  constructor
  · intro sep ensure dl
    rcases dl with _ | ⟨x, t⟩
    · simp [mergeStep]
    · rw [mergeStep, if_neg (by simp)]
      by_cases hfp : buildFinalPaths sep ensure
          ((x :: t).mergeSort (fun a b => slotLe a.1 b.1)) none = []
      · simp [hfp]
      · simp [hfp]
  · intro rex download sep ensure m files h
    have hie : ((resolveSlots rex m.slots files).filterMap (fun r =>
        if r.missing && r.slot.required then some r.slot.slot else none)).isEmpty = true := by
      rw [h]
      rfl
    simp only [processPacket, hie, Bool.not_true, Bool.false_eq_true, if_false, ite_false]
    exact ⟨by trivial, by trivial, by simp⟩

theorem nothing_to_merge_spec_witness :
    (mergeStep cSep cEnsure ([] : List (Slot × String)) = none) ∧
    (((processPacket wRex wDownload cSep cEnsure wManifestOpt wFilesNone).artifact = none ↔
        mergeStep cSep cEnsure
          (downloadResolved wDownload (resolveSlots wRex wManifestOpt.slots wFilesNone)) =
            none) ∧
      (processPacket wRex wDownload cSep cEnsure wManifestOpt wFilesNone).status =
        PStatus.ok ∧
      PStatus.ok ≠ PStatus.error) :=
  ⟨(nothing_to_merge_spec.1 cSep cEnsure []).mpr (Or.inl rfl),
    nothing_to_merge_spec.2 wRex wDownload cSep cEnsure wManifestOpt wFilesNone (by decide)⟩
